import Mathlib

/-!
Verification of the michel-bot issue-correlation core.

Strings from the Rust sources are modelled as `List Char`; the `str`
operations used by the code (`trim`, `trim_start`, `strip_prefix`,
`strip_suffix`, `split`) are given faithful list-level definitions.
Database rows are a list of records, SQL statements become list
operations, and the side-effecting handlers are given a trace
semantics: each handler returns the list of externally visible
operations it performed, in order, together with its result.
-/

/-- Unicode `White_Space` characters, the set used by Rust's
`char::is_whitespace` (and hence `str::trim`). -/
def rustWhitespaceChars : List Char :=
  ['\t', '\n', '\x0b', '\x0c', '\r', ' ',
   Char.ofNat 0x85, Char.ofNat 0xA0, Char.ofNat 0x1680,
   Char.ofNat 0x2000, Char.ofNat 0x2001, Char.ofNat 0x2002,
   Char.ofNat 0x2003, Char.ofNat 0x2004, Char.ofNat 0x2005,
   Char.ofNat 0x2006, Char.ofNat 0x2007, Char.ofNat 0x2008,
   Char.ofNat 0x2009, Char.ofNat 0x200A, Char.ofNat 0x2028,
   Char.ofNat 0x2029, Char.ofNat 0x202F, Char.ofNat 0x205F,
   Char.ofNat 0x3000]

/-- Rust `char::is_whitespace`. -/
def isRustWhitespace (c : Char) : Bool :=
  rustWhitespaceChars.contains c

/-- Rust `str::trim_start`. -/
def trimStart (s : List Char) : List Char :=
  s.dropWhile isRustWhitespace

/-- Rust `str::trim_end`. -/
def trimEnd : List Char → List Char
  | [] => []
  | c :: cs =>
    match trimEnd cs with
    | [] => if isRustWhitespace c then [] else [c]
    | rest => c :: rest

/-- Rust `str::trim`. -/
def rustTrim (s : List Char) : List Char :=
  trimEnd (trimStart s)

/-- Rust `str::strip_prefix(p)`: `some rest` when `s = p ++ rest`. -/
def stripStart : List Char → List Char → Option (List Char)
  | [], s => some s
  | _ :: _, [] => none
  | p :: ps, c :: cs => if p = c then stripStart ps cs else none

/-- Rust `str::strip_prefix(q)` for a single character `q`. -/
def stripStartChar (q : Char) (s : List Char) : Option (List Char) :=
  match s with
  | [] => none
  | c :: cs => if c = q then some cs else none

/-- Rust `str::strip_suffix(q)` for a single character `q`. -/
def stripEndChar (q : Char) (s : List Char) : Option (List Char) :=
  match s.reverse with
  | [] => none
  | c :: rest => if c = q then some rest.reverse else none

/-- The `Command` enum of `src/commands.rs`. -/
inductive Command where
  | Resolve (comment : Option (List Char))
deriving DecidableEq

/-- `parse_command` from `src/commands.rs`, the command-interpreter
grammar of §4.3: trims the body, strips `!issues`, then the `resolve`
subcommand, and extracts an optional (possibly quoted) comment. -/
def parse_command (body : List Char) : Option Command :=
  let body := rustTrim body
  match stripStart "!issues".toList body with
  | none => none
  | some rest =>
    let rest := trimStart rest
    match stripStart "resolve".toList rest with
    | none => none
    | some rest =>
      let rest := rustTrim rest
      if rest = [] then
        some (.Resolve none)
      else
        match stripStartChar '"' rest with
        | some inner =>
          let comment := (stripEndChar '"' inner).getD inner
          if comment = [] then some (.Resolve none)
          else some (.Resolve (some comment))
        | none => some (.Resolve (some rest))

example : parse_command "!issues resolve \"fixed it\"".toList
    = some (.Resolve (some "fixed it".toList)) := by decide
example : parse_command "!issues resolve".toList = some (.Resolve none) := by decide
example : parse_command "!issues resolve \"\"".toList = some (.Resolve none) := by decide
example : parse_command "hello".toList = none := by decide
example : parse_command "  !issues resolve  ".toList = some (.Resolve none) := by decide
example : parse_command "!issues unknown".toList = none := by decide
example : parse_command "!issues resolved".toList = some (.Resolve (some ['d'])) := by decide
example : parse_command "!issues resolve fixed it".toList
    = some (.Resolve (some "fixed it".toList)) := by decide

/-! ## Correlation Store (`src/db.rs`)

The Postgres table `issue_events` is modelled as a list of rows in
insertion order.  Every `sqlx` statement of `src/db.rs` becomes a list
operation with the semantics of the SQL it executes. -/

/-- The `IssueEvent` row struct of `src/db.rs`. -/
structure IssueEvent where
  issue_id : Int
  matrix_event_id : List Char
  matrix_room_id : List Char
  reaction_event_id : Option (List Char)
deriving DecidableEq

/-- The `issue_events` table: rows in insertion order. -/
structure Store where
  rows : List IssueEvent
deriving DecidableEq

/-- Database-level failures surfaced by `sqlx`. -/
inductive DbError where
  | uniqueViolation
deriving DecidableEq

/-- `insert_issue_event` from `src/db.rs`: a plain
`INSERT INTO issue_events (issue_id, matrix_event_id, matrix_room_id)`.
Modelled from the spec: the migration file
`migrations/001_create_issue_events.sql` referenced by `run_migrations`
is not among the sources, so the table constraint comes from the spec
(§3/§6: `issue_id (unique key)`); a duplicate `issue_id` therefore makes
the INSERT fail with a uniqueness violation.  `reaction_event_id` starts
out NULL (it is absent from the INSERT column list). -/
def insert_issue_event (s : Store) (issue_id : Int)
    (matrix_event_id matrix_room_id : List Char) : Except DbError Store :=
  if s.rows.any (fun r => r.issue_id = issue_id) then
    .error .uniqueViolation
  else
    .ok ⟨s.rows ++ [⟨issue_id, matrix_event_id, matrix_room_id, none⟩]⟩

/-- `get_issue_event` from `src/db.rs`:
`SELECT ... WHERE issue_id = $1` with `fetch_optional`. -/
def get_issue_event (s : Store) (issue_id : Int) : Option IssueEvent :=
  s.rows.find? (fun r => r.issue_id = issue_id)

/-- `get_issue_event_by_matrix_event_id` from `src/db.rs`:
`SELECT ... WHERE matrix_event_id = $1` with `fetch_optional`. -/
def get_issue_event_by_matrix_event_id (s : Store)
    (matrix_event_id : List Char) : Option IssueEvent :=
  s.rows.find? (fun r => r.matrix_event_id = matrix_event_id)

/-- `set_reaction_event_id` from `src/db.rs`:
`UPDATE issue_events SET reaction_event_id = $1 WHERE issue_id = $2`.
The UPDATE touches every matching row (zero rows is fine) and the Rust
function ignores the affected-row count, returning `Ok` either way. -/
def set_reaction_event_id (s : Store) (issue_id : Int)
    (reaction_event_id : List Char) : Except DbError Store :=
  .ok ⟨s.rows.map (fun r =>
    if r.issue_id = issue_id then
      { r with reaction_event_id := some reaction_event_id }
    else r)⟩

/-- `clear_reaction_event_id` from `src/db.rs`:
`UPDATE issue_events SET reaction_event_id = NULL WHERE issue_id = $1`;
like `set_reaction_event_id` it succeeds whether or not a row matches. -/
def clear_reaction_event_id (s : Store) (issue_id : Int) :
    Except DbError Store :=
  .ok ⟨s.rows.map (fun r =>
    if r.issue_id = issue_id then
      { r with reaction_event_id := none }
    else r)⟩

/-- The store invariant of §3: at most one correlation record per
`issue_id`. -/
def UniqueIds (s : Store) : Prop :=
  (s.rows.map IssueEvent.issue_id).Nodup

instance (s : Store) : Decidable (UniqueIds s) := by
  unfold UniqueIds; infer_instance

/-! ## Command Interpreter (`handle_message` in `src/commands.rs`)

The handler is given a trace semantics: it returns the list of
externally visible operations (issue-API calls and chat sends) it
performed, in program order, together with its `anyhow::Result`.  The
remote collaborators are oracles: the database lookup result and the
success of each remote call are inputs. -/

/-- The `relates_to` relation of an incoming room-message event:
`Relation::Thread` carries the thread root event id; every other
relation kind is `other`. -/
inductive MsgRelation where
  | thread (event_id : List Char)
  | other
deriving DecidableEq

/-- Externally visible operations of `handle_message`, in program
order: the two Seerr issue-API calls and the threaded chat reply. -/
inductive Effect where
  | addComment (issue_id : Int) (message : List Char)
  | resolveIssue (issue_id : Int)
  | sendThreadReply (thread_root : List Char) (plain html : List Char)
deriving DecidableEq

/-- Oracles for the remote collaborators of `handle_message`:
the correlation-store lookup (which can itself fail) and the success
of each Seerr call and of the chat send. -/
structure RemoteEnv where
  dbLookup : List Char → Except Unit (Option IssueEvent)
  addCommentOk : Int → List Char → Bool
  resolveIssueOk : Int → Bool
  sendReplyOk : List Char → Bool

/-- `handle_message` from `src/commands.rs`: authorization gate,
parse, threading gate, store lookup, then comment / resolve /
confirmation reply, each `?`-gated on the previous call's success.
Returns the performed-operation trace (a failed remote call is still
an attempted, hence traced, operation) and the function's result. -/
def handle_message (env : RemoteEnv) (admin_users : List (List Char))
    (sender : List Char) (body : List Char)
    (relates_to : Option MsgRelation) : List Effect × Except Unit Unit :=
  if ¬ admin_users.any (fun u => u = sender) then
    ([], .ok ())
  else
    match parse_command body with
    | none => ([], .ok ())
    | some (.Resolve comment) =>
      match relates_to with
      | some (.thread thread_root_event_id) =>
        match env.dbLookup thread_root_event_id with
        | .error e => ([], .error e)
        | .ok none => ([], .ok ())
        | .ok (some issue_event) =>
          let issue_id := issue_event.issue_id
          let plain := ("Issue " ++ toString issue_id ++ " resolved").toList
          let html :=
            ("<b>Issue " ++ toString issue_id ++ " resolved</b>").toList
          match comment with
          | some comment_text =>
            if env.addCommentOk issue_id comment_text then
              if env.resolveIssueOk issue_id then
                ([.addComment issue_id comment_text,
                  .resolveIssue issue_id,
                  .sendThreadReply thread_root_event_id plain html],
                 if env.sendReplyOk thread_root_event_id then .ok ()
                 else .error ())
              else
                ([.addComment issue_id comment_text,
                  .resolveIssue issue_id], .error ())
            else
              ([.addComment issue_id comment_text], .error ())
          | none =>
            if env.resolveIssueOk issue_id then
              ([.resolveIssue issue_id,
                .sendThreadReply thread_root_event_id plain html],
               if env.sendReplyOk thread_root_event_id then .ok ()
               else .error ())
            else
              ([.resolveIssue issue_id], .error ())
      | _ => ([], .ok ())

/-! ## Notification Router (`IssueCreated` path of the webhook handler)

`src/lib.rs` declares `pub mod webhook`, but `webhook.rs` itself is not
among the sources, so the router is modelled from the spec (§4.2). -/

/-- Chat operations emitted by the Notification Router. -/
inductive RouterOp where
  | sendRootMessage (room subject : List Char)
  | addReaction (target marker_event : List Char)
deriving DecidableEq

/-- Recognizer for the root-message send operation. -/
def RouterOp.isSendRootMessage : RouterOp → Bool
  | .sendRootMessage _ _ => true
  | _ => false

/-- Modelled from the spec: `webhook.rs` (the Notification Router) is
declared in `src/lib.rs` but missing from the sources.  Per §4.2, on
`IssueCreated`: if `findByIssueId` is not-found, render and send a new
root message, capture its message id (`freshRootId`), and
`createRecord`; if a record already exists (duplicate delivery) this is
an idempotent no-op with no second root message.  Then attach a status
marker to the root message (recording it via `setStatusMarker`),
skipped if a marker is already recorded. -/
def route_issue_created (s : Store) (issueId : Int)
    (roomId subject freshRootId freshMarkerId : List Char) :
    Store × List RouterOp :=
  match get_issue_event s issueId with
  | none =>
    match insert_issue_event s issueId freshRootId roomId with
    | .ok s1 =>
      match set_reaction_event_id s1 issueId freshMarkerId with
      | .ok s2 =>
        (s2, [.sendRootMessage roomId subject,
              .addReaction freshRootId freshMarkerId])
      | .error _ => (s1, [.sendRootMessage roomId subject])
    | .error _ =>
      (s, [.sendRootMessage roomId subject])
  | some ev =>
    if ev.reaction_event_id.isSome then
      (s, [])
    else
      match set_reaction_event_id s issueId freshMarkerId with
      | .ok s2 =>
        (s2, [.addReaction ev.matrix_event_id freshMarkerId])
      | .error _ => (s, [])

/-! ## Configuration (`src/config.rs` and the admin list of `src/main.rs`) -/

/-- The process environment: variable name to optional value. -/
def EnvMap : Type := List Char → Option (List Char)

/-- Rust `str::split(',')`: every comma separates; empty pieces are
kept, and the empty string yields one empty piece. -/
def splitComma : List Char → List (List Char)
  | [] => [[]]
  | c :: cs =>
    if c = ',' then [] :: splitComma cs
    else
      match splitComma cs with
      | [] => [[c]]
      | piece :: pieces => (c :: piece) :: pieces

/-- The `matrix_admin_users` field expression of `Config::from_env`
(`src/config.rs`): the raw value is split on commas, each entry is
trimmed, and empty entries are dropped. -/
def parseAdminUsers (raw : List Char) : List (List Char) :=
  ((splitComma raw).map rustTrim).filter (fun s => ¬ s = [])

/-- The `Config` struct of `src/config.rs`. -/
structure Config where
  matrix_homeserver_url : List Char
  matrix_user_id : List Char
  matrix_password : List Char
  matrix_room_alias : List Char
  database_url : List Char
  webhook_listen_addr : List Char
  seerr_api_url : List Char
  seerr_api_key : List Char
  matrix_admin_users : List (List Char)
deriving DecidableEq

/-- `Config::from_env` from `src/config.rs`: each required variable is
read with a `context(...)` error on absence; `WEBHOOK_LISTEN_ADDR`
defaults to `0.0.0.0:8080`; `MATRIX_ADMIN_USERS` defaults to the empty
string and is split/trimmed/filtered, never failing. -/
def Config.from_env (env : EnvMap) : Except (List Char) Config :=
  match env "MATRIX_HOMESERVER_URL".toList with
  | none => .error "MATRIX_HOMESERVER_URL must be set".toList
  | some matrix_homeserver_url =>
  match env "MATRIX_USER_ID".toList with
  | none => .error "MATRIX_USER_ID must be set".toList
  | some matrix_user_id =>
  match env "MATRIX_PASSWORD".toList with
  | none => .error "MATRIX_PASSWORD must be set".toList
  | some matrix_password =>
  match env "MATRIX_ROOM_ALIAS".toList with
  | none => .error "MATRIX_ROOM_ALIAS must be set".toList
  | some matrix_room_alias =>
  match env "DATABASE_URL".toList with
  | none => .error "DATABASE_URL must be set".toList
  | some database_url =>
  match env "SEERR_API_URL".toList with
  | none => .error "SEERR_API_URL must be set".toList
  | some seerr_api_url =>
  match env "SEERR_API_KEY".toList with
  | none => .error "SEERR_API_KEY must be set".toList
  | some seerr_api_key =>
    .ok
      { matrix_homeserver_url, matrix_user_id, matrix_password,
        matrix_room_alias, database_url,
        webhook_listen_addr :=
          (env "WEBHOOK_LISTEN_ADDR".toList).getD "0.0.0.0:8080".toList,
        seerr_api_url, seerr_api_key,
        matrix_admin_users :=
          parseAdminUsers ((env "MATRIX_ADMIN_USERS".toList).getD []) }

/-- The `admin_users` binding of `src/main.rs`: each configured entry
is run through `OwnedUserId::try_from` and entries that fail to parse
are silently dropped (`filter_map(.. .ok())`).  The Matrix user-id
syntax check lives in the external `ruma` crate, so it is abstracted
as the predicate `valid`; the kept entries are recorded by their
string. -/
def admin_users_of (cfg : Config) (valid : List Char → Bool) :
    List (List Char) :=
  cfg.matrix_admin_users.filter valid

/-- Overriding one variable of a process environment. -/
def setVar (env : EnvMap) (key : List Char) (v : Option (List Char)) :
    EnvMap :=
  fun k => if k = key then v else env k

/-- A concrete environment with every variable set to `v` except
`MATRIX_ADMIN_USERS`, which is absent. -/
def envNoAdmins : EnvMap :=
  fun k => if k = "MATRIX_ADMIN_USERS".toList then none else some "v".toList

/-- Remote-call oracle where every collaborator succeeds and the
thread root maps to issue 42. -/
def oracleIssue42 : RemoteEnv where
  dbLookup := fun _ =>
    .ok (some ⟨42, "$root:example.org".toList, "!room:example.org".toList, none⟩)
  addCommentOk := fun _ _ => true
  resolveIssueOk := fun _ => true
  sendReplyOk := fun _ => true

/-- Remote-call oracle whose store lookup finds nothing. -/
def oracleNotFound : RemoteEnv where
  dbLookup := fun _ => .ok none
  addCommentOk := fun _ _ => true
  resolveIssueOk := fun _ => true
  sendReplyOk := fun _ => true

/-! ## Theorems -/

/-! ### String-primitive lemmas -/

theorem trimStart_cons_of_ws (c : Char) (s : List Char)
    (h : isRustWhitespace c = true) : trimStart (c :: s) = trimStart s := by
  simp [trimStart, List.dropWhile_cons, h]

theorem trimStart_cons_of_not_ws (c : Char) (s : List Char)
    (h : isRustWhitespace c = false) : trimStart (c :: s) = c :: s := by
  simp [trimStart, List.dropWhile_cons, h]

theorem trimStart_idem : ∀ s : List Char,
    trimStart (trimStart s) = trimStart s := by
  intro s
  induction s with
  | nil => rfl
  | cons c cs ih =>
    cases hw : isRustWhitespace c with
    | true => rw [trimStart_cons_of_ws c cs hw, ih]
    | false =>
      rw [trimStart_cons_of_not_ws c cs hw, trimStart_cons_of_not_ws c cs hw]

theorem trimEnd_cons (c : Char) (s : List Char) :
    trimEnd (c :: s)
      = match trimEnd s with
        | [] => if isRustWhitespace c then [] else [c]
        | rest => c :: rest := rfl

theorem trimEnd_cons_of_ne_nil (c : Char) (s : List Char)
    (h : trimEnd s ≠ []) : trimEnd (c :: s) = c :: trimEnd s := by
  rw [trimEnd_cons]
  cases hs : trimEnd s with
  | nil => exact absurd hs h
  | cons x xs => rfl

theorem trimEnd_append_of_ne_nil (a b : List Char) (h : trimEnd b ≠ []) :
    trimEnd (a ++ b) = a ++ trimEnd b := by
  induction a with
  | nil => rfl
  | cons c a ih =>
    rw [List.cons_append, trimEnd_cons_of_ne_nil c (a ++ b)
      (by rw [ih]; simp [h]), ih, List.cons_append]

theorem trimEnd_append_of_nil (a b : List Char) (h : trimEnd b = []) :
    trimEnd (a ++ b) = trimEnd a := by
  induction a with
  | nil => simpa using h
  | cons c a ih =>
    rw [List.cons_append, trimEnd_cons, ih, trimEnd_cons]

theorem all_ws_of_trimEnd_nil : ∀ s : List Char, trimEnd s = [] →
    ∀ c ∈ s, isRustWhitespace c = true := by
  intro s
  induction s with
  | nil => intro _ c hc; simp at hc
  | cons x xs ih =>
    intro h c hc
    rw [trimEnd_cons] at h
    cases hxs : trimEnd xs with
    | nil =>
      rw [hxs] at h
      rcases List.mem_cons.mp hc with rfl | hmem
      · by_contra hw
        rw [Bool.not_eq_true] at hw
        simp [hw] at h
      · exact ih hxs c hmem
    | cons y ys =>
      rw [hxs] at h
      simp at h

theorem trimStart_of_all_ws : ∀ s : List Char,
    (∀ c ∈ s, isRustWhitespace c = true) → trimStart s = [] := by
  intro s
  induction s with
  | nil => intro _; rfl
  | cons x xs ih =>
    intro h
    rw [trimStart_cons_of_ws x xs (h x (by simp))]
    exact ih (fun c hc => h c (by simp [hc]))

theorem rustTrim_eq_nil_of_trimEnd_nil (s : List Char)
    (h : trimEnd s = []) : rustTrim s = [] := by
  show trimEnd (trimStart s) = []
  rw [trimStart_of_all_ws s (all_ws_of_trimEnd_nil s h)]
  rfl

theorem trimEnd_idem : ∀ s : List Char, trimEnd (trimEnd s) = trimEnd s := by
  intro s
  induction s with
  | nil => rfl
  | cons c cs ih =>
    rw [trimEnd_cons]
    cases hcs : trimEnd cs with
    | nil =>
      cases hw : isRustWhitespace c with
      | true =>
        simp only [hw, if_true]
        rfl
      | false =>
        simp only [hw, Bool.false_eq_true, if_false]
        rw [trimEnd_cons]
        simp [hw]
        rfl
    | cons y ys =>
      rw [hcs] at ih
      show trimEnd (c :: y :: ys) = c :: y :: ys
      rw [trimEnd_cons, ih]

theorem trimStart_trimEnd_comm : ∀ s : List Char,
    trimStart (trimEnd s) = trimEnd (trimStart s) := by
  intro s
  induction s with
  | nil => rfl
  | cons c cs ih =>
    cases hw : isRustWhitespace c with
    | true =>
      rw [trimStart_cons_of_ws c cs hw, ← ih, trimEnd_cons]
      cases hcs : trimEnd cs with
      | nil =>
        show trimStart (if isRustWhitespace c = true then [] else [c])
            = trimStart []
        rw [if_pos hw]
      | cons y ys =>
        show trimStart (c :: y :: ys) = trimStart (y :: ys)
        exact trimStart_cons_of_ws c (y :: ys) hw
    | false =>
      rw [trimStart_cons_of_not_ws c cs hw, trimEnd_cons]
      cases hcs : trimEnd cs with
      | nil =>
        show trimStart (if isRustWhitespace c = true then [] else [c])
            = if isRustWhitespace c = true then [] else [c]
        rw [if_neg (by simp [hw]), trimStart_cons_of_not_ws c [] hw]
      | cons y ys =>
        show trimStart (c :: y :: ys) = c :: y :: ys
        exact trimStart_cons_of_not_ws c (y :: ys) hw

theorem rustTrim_trimEnd (s : List Char) :
    rustTrim (trimEnd s) = rustTrim s := by
  show trimEnd (trimStart (trimEnd s)) = trimEnd (trimStart s)
  rw [trimStart_trimEnd_comm, trimEnd_idem]

theorem rustTrim_cons_of_ws (c : Char) (s : List Char)
    (h : isRustWhitespace c = true) : rustTrim (c :: s) = rustTrim s := by
  show trimEnd (trimStart (c :: s)) = rustTrim s
  rw [trimStart_cons_of_ws c s h]
  rfl

theorem rustTrim_idem (s : List Char) : rustTrim (rustTrim s) = rustTrim s := by
  show trimEnd (trimStart (trimEnd (trimStart s))) = trimEnd (trimStart s)
  rw [trimStart_trimEnd_comm, trimStart_idem, trimEnd_idem]

theorem stripStart_of_append : ∀ p s : List Char,
    stripStart p (p ++ s) = some s := by
  intro p
  induction p with
  | nil => intro s; rfl
  | cons c cs ih => intro s; simpa [stripStart] using ih s

theorem stripStart_eq_some_iff : ∀ p s r : List Char,
    stripStart p s = some r ↔ s = p ++ r := by
  intro p
  induction p with
  | nil =>
    intro s r
    simp only [stripStart, Option.some.injEq, List.nil_append]
  | cons c cs ih =>
    intro s r
    cases s with
    | nil => simp [stripStart]
    | cons x xs =>
      simp only [stripStart, List.cons_append, List.cons.injEq]
      by_cases hc : c = x
      · subst hc
        simp [ih]
      · simp only [if_neg hc]
        constructor
        · intro h
          exact absurd h (by simp)
        · rintro ⟨h1, h2⟩
          exact absurd h1.symm hc

theorem trimEnd_is_leading_part : ∀ s : List Char,
    ∃ t, s = trimEnd s ++ t := by
  intro s
  induction s with
  | nil => exact ⟨[], rfl⟩
  | cons c cs ih =>
    obtain ⟨t, ht⟩ := ih
    unfold trimEnd
    cases hcs : trimEnd cs with
    | nil =>
      by_cases hw : isRustWhitespace c = true
      · exact ⟨c :: cs, by simp [hw]⟩
      · refine ⟨cs, ?_⟩
        simp [hw]
    | cons y ys =>
      refine ⟨t, ?_⟩
      rw [hcs] at ht
      simp [ht]

theorem admins_any_eq_true {admins : List (List Char)} {sender : List Char}
    (h : sender ∈ admins) : (admins.any fun u => u = sender) = true := by
  rw [List.any_eq_true]
  exact ⟨sender, h, by simp⟩

theorem admins_any_eq_false {admins : List (List Char)} {sender : List Char}
    (h : sender ∉ admins) : (admins.any fun u => u = sender) = false := by
  rw [List.any_eq_false]
  intro u hu
  simp only [decide_eq_true_eq]
  exact fun he => h (he ▸ hu)

/-- Evaluation spine of `parse_command` on a body of the form
`"!issues resolve" ++ u`: the whole-body trim, the `!issues` strip,
the inter-token trim and the `resolve` strip collapse so that only the
comment-extraction step on `rustTrim u` remains. -/
theorem parse_command_resolve_spine (u : List Char) :
    parse_command ("!issues resolve".toList ++ u)
      = (if rustTrim u = [] then some (.Resolve none)
         else
           match stripStartChar '"' (rustTrim u) with
           | some inner =>
             if (stripEndChar '"' inner).getD inner = [] then
               some (.Resolve none)
             else some (.Resolve (some ((stripEndChar '"' inner).getD inner)))
           | none => some (.Resolve (some (rustTrim u)))) := by
  by_cases htE : trimEnd u = []
  · have hrt : rustTrim u = [] := rustTrim_eq_nil_of_trimEnd_nil u htE
    have h1 : rustTrim ("!issues resolve".toList ++ u)
        = "!issues resolve".toList := by
      show trimEnd (trimStart ("!issues resolve".toList ++ u)) = _
      have h0 : ("!issues resolve".toList ++ u)
          = '!' :: ("issues resolve".toList ++ u) := rfl
      rw [h0, trimStart_cons_of_not_ws _ _ (by decide), ← h0,
        trimEnd_append_of_nil _ _ htE]
      decide
    simp only [parse_command, h1, hrt]
    decide
  · have h1 : rustTrim ("!issues resolve".toList ++ u)
        = "!issues resolve".toList ++ trimEnd u := by
      show trimEnd (trimStart ("!issues resolve".toList ++ u)) = _
      have h0 : ("!issues resolve".toList ++ u)
          = '!' :: ("issues resolve".toList ++ u) := rfl
      rw [h0, trimStart_cons_of_not_ws _ _ (by decide), ← h0]
      exact trimEnd_append_of_ne_nil _ _ htE
    have h2 : stripStart "!issues".toList
        ("!issues resolve".toList ++ trimEnd u)
        = some (" resolve".toList ++ trimEnd u) := by
      have ha : "!issues resolve".toList ++ trimEnd u
          = "!issues".toList ++ (" resolve".toList ++ trimEnd u) := by
        rw [(by decide :
          "!issues resolve".toList = "!issues".toList ++ " resolve".toList),
          List.append_assoc]
      rw [ha, stripStart_of_append]
    have h3 : trimStart (" resolve".toList ++ trimEnd u)
        = "resolve".toList ++ trimEnd u := by
      have h0 : (" resolve".toList ++ trimEnd u)
          = ' ' :: ("resolve".toList ++ trimEnd u) := rfl
      have h0r : ("resolve".toList ++ trimEnd u)
          = 'r' :: ("esolve".toList ++ trimEnd u) := rfl
      rw [h0, trimStart_cons_of_ws _ _ (by decide), h0r,
        trimStart_cons_of_not_ws _ _ (by decide)]
    have h4 : stripStart "resolve".toList
        ("resolve".toList ++ trimEnd u) = some (trimEnd u) :=
      stripStart_of_append _ _
    simp only [parse_command, h1, h2, h3, h4, rustTrim_trimEnd]

/-- C2: the §4.3 grammar: the five concrete parse equations; a
non-empty unquoted comment parses to its trim; and an opening quote
with no closing quote yields the remainder verbatim with only the
opening quote stripped. -/
theorem c2_parse_grammar :
    parse_command "!issues resolve \"fixed it\"".toList
      = some (.Resolve (some "fixed it".toList)) ∧
    parse_command "!issues resolve".toList = some (.Resolve none) ∧
    parse_command "!issues resolve \"\"".toList = some (.Resolve none) ∧
    parse_command "hello".toList = none ∧
    parse_command "  !issues resolve  ".toList = some (.Resolve none) ∧
    (∀ text : List Char, rustTrim text ≠ [] →
      (rustTrim text).head? ≠ some '"' →
      parse_command ("!issues resolve ".toList ++ text)
        = some (.Resolve (some (rustTrim text)))) ∧
    (∀ inner : List Char, inner ≠ [] → trimEnd inner = inner →
      inner.getLast? ≠ some '"' →
      parse_command ("!issues resolve \"".toList ++ inner)
        = some (.Resolve (some inner))) := by
  refine ⟨by decide, by decide, by decide, by decide, by decide, ?_, ?_⟩
  · intro text h1 h2
    have hsp : "!issues resolve ".toList ++ text
        = "!issues resolve".toList ++ (' ' :: text) := rfl
    rw [hsp, parse_command_resolve_spine,
      rustTrim_cons_of_ws _ _ (by decide), if_neg h1]
    cases hrt : rustTrim text with
    | nil => exact absurd hrt h1
    | cons c tl =>
      have hc : ¬ c = '"' := by
        intro hcq
        rw [hrt, hcq] at h2
        simp at h2
      simp [stripStartChar, hc]
  · intro inner hne htEq hlast
    have hsp : "!issues resolve \"".toList ++ inner
        = "!issues resolve".toList ++ (' ' :: '"' :: inner) := rfl
    have hu : rustTrim (' ' :: '"' :: inner) = '"' :: inner := by
      rw [rustTrim_cons_of_ws _ _ (by decide)]
      show trimEnd (trimStart ('"' :: inner)) = '"' :: inner
      rw [trimStart_cons_of_not_ws _ _ (by decide),
        trimEnd_cons_of_ne_nil _ _ (by rw [htEq]; exact hne), htEq]
    have hstrip : stripEndChar '"' inner = none := by
      unfold stripEndChar
      cases hrev : inner.reverse with
      | nil => rfl
      | cons c rest =>
        have hgl : inner.getLast? = some c := by
          rw [List.getLast?_eq_head?_reverse, hrev]
          rfl
        show (if c = '"' then some rest.reverse else none) = none
        rw [if_neg]
        intro hcq
        rw [hcq] at hgl
        exact hlast hgl
    rw [hsp, parse_command_resolve_spine, hu, if_neg (by simp)]
    simp [stripStartChar, hstrip, hne]

theorem c2_parse_grammar_witness :
    parse_command "!issues resolve fixed it".toList
      = some (.Resolve (some "fixed it".toList)) := by
  have h := c2_parse_grammar.2.2.2.2.2.1 "fixed it".toList
    (by decide) (by decide)
  have hb : "!issues resolve ".toList ++ "fixed it".toList
      = "!issues resolve fixed it".toList := by decide
  have ht : rustTrim "fixed it".toList = "fixed it".toList := by decide
  rw [hb, ht] at h
  exact h

/-- C8 counterexample: `!issues resolved` does not parse to
not-a-command — the parser strips the literal prefix `resolve` without
a token-boundary check, so it yields `Resolve` with comment `"d"`. -/
theorem c8_counterexample :
    ¬ parse_command "!issues resolved".toList = none ∧
    parse_command "!issues resolved".toList
      = some (.Resolve (some "d".toList)) := by
  refine ⟨?_, by decide⟩
  decide

/-- C8 (amended): a message whose remainder after `!issues` (trimmed
at the start) does not begin with the string `resolve` parses to
not-a-command (for example `!issues unknown`); but the parser checks
only that the remainder begins with `resolve`, not that the whole
token equals `resolve`, so `!issues resolved` parses as `Resolve` with
comment `"d"`. -/
theorem c8_unknown_subcommand_ignored :
    parse_command "!issues unknown".toList = none ∧
    parse_command "!issues resolved".toList
      = some (.Resolve (some "d".toList)) ∧
    (∀ rest : List Char,
      (∀ t, trimStart rest ≠ "resolve".toList ++ t) →
      parse_command ("!issues".toList ++ rest) = none) := by
  refine ⟨by decide, by decide, ?_⟩
  intro rest h
  by_cases htE : trimEnd rest = []
  · have h1 : rustTrim ("!issues".toList ++ rest) = "!issues".toList := by
      show trimEnd (trimStart ("!issues".toList ++ rest)) = _
      have h0 : ("!issues".toList ++ rest)
          = '!' :: ("issues".toList ++ rest) := rfl
      rw [h0, trimStart_cons_of_not_ws _ _ (by decide), ← h0,
        trimEnd_append_of_nil _ _ htE]
      decide
    simp only [parse_command, h1]
    decide
  · have h1 : rustTrim ("!issues".toList ++ rest)
        = "!issues".toList ++ trimEnd rest := by
      show trimEnd (trimStart ("!issues".toList ++ rest)) = _
      have h0 : ("!issues".toList ++ rest)
          = '!' :: ("issues".toList ++ rest) := rfl
      rw [h0, trimStart_cons_of_not_ws _ _ (by decide), ← h0]
      exact trimEnd_append_of_ne_nil _ _ htE
    have h2 : stripStart "!issues".toList
        ("!issues".toList ++ trimEnd rest) = some (trimEnd rest) :=
      stripStart_of_append _ _
    have h3 : stripStart "resolve".toList (trimStart (trimEnd rest))
        = none := by
      cases hopt : stripStart "resolve".toList (trimStart (trimEnd rest)) with
      | none => rfl
      | some t =>
        exfalso
        rw [stripStart_eq_some_iff] at hopt
        rw [trimStart_trimEnd_comm] at hopt
        obtain ⟨t2, ht2⟩ := trimEnd_is_leading_part (trimStart rest)
        rw [hopt] at ht2
        exact h (t ++ t2) (by rw [ht2, List.append_assoc])
    simp only [parse_command, h1, h2, h3]

theorem c8_unknown_subcommand_ignored_witness :
    parse_command ("!issues".toList ++ " unknown".toList) = none :=
  c8_unknown_subcommand_ignored.2.2 " unknown".toList
    (fun t h => by
      have hh := congrArg List.head? h
      rw [(by decide : (trimStart " unknown".toList).head? = some 'u'),
        (by rfl : ("resolve".toList ++ t).head? = some 'r')] at hh
      exact absurd hh (by decide))

/-- C6: a message from a sender outside the admin allow-list produces
zero issue-API calls and zero chat replies, whatever the body or
thread relation, and any two such messages have identical (empty)
observable output. -/
theorem c6_authorization_gate (env : RemoteEnv) (admins : List (List Char))
    (sender body1 body2 : List Char) (rel1 rel2 : Option MsgRelation)
    (h : sender ∉ admins) :
    handle_message env admins sender body1 rel1 = ([], .ok ()) ∧
    handle_message env admins sender body2 rel2 = ([], .ok ()) ∧
    handle_message env admins sender body1 rel1 =
      handle_message env admins sender body2 rel2 := by
  have hany := admins_any_eq_false h
  refine ⟨?_, ?_, ?_⟩ <;> simp [handle_message, hany]

theorem c6_authorization_gate_witness :
    handle_message oracleIssue42 ["@admin:example.org".toList]
      "@mallory:example.org".toList "!issues resolve".toList none
      = ([], .ok ()) :=
  (c6_authorization_gate oracleIssue42 ["@admin:example.org".toList]
    "@mallory:example.org".toList "!issues resolve".toList
    "!issues resolve \"done\"".toList none
    (some (.thread "$root:example.org".toList)) (by decide)).1

/-- C7: an admin-sent `Resolve` command that is not a threaded reply,
or whose thread root has no correlation record, performs zero
issue-API calls, sends zero replies, and returns `Ok` (the event is
dropped); the handler reads the store through a lookup only, so no
store state is mutated. -/
theorem c7_threading_and_lookup_gate (env : RemoteEnv)
    (admins : List (List Char)) (sender body root : List Char)
    (c : Option (List Char))
    (hadmin : sender ∈ admins)
    (hparse : parse_command body = some (.Resolve c)) :
    (∀ rel : Option MsgRelation, (∀ r, rel ≠ some (.thread r)) →
      handle_message env admins sender body rel = ([], .ok ())) ∧
    (env.dbLookup root = .ok none →
      handle_message env admins sender body (some (.thread root))
        = ([], .ok ())) := by
  have hany := admins_any_eq_true hadmin
  constructor
  · intro rel hrel
    match rel with
    | none => simp [handle_message, hany, hparse]
    | some .other => simp [handle_message, hany, hparse]
    | some (.thread r) => exact absurd rfl (hrel r)
  · intro hdb
    simp [handle_message, hany, hparse, hdb]

theorem c7_threading_and_lookup_gate_witness :
    handle_message oracleNotFound ["@admin:example.org".toList]
      "@admin:example.org".toList "!issues resolve".toList none
      = ([], .ok ()) :=
  (c7_threading_and_lookup_gate oracleNotFound ["@admin:example.org".toList]
    "@admin:example.org".toList "!issues resolve".toList
    "$root:example.org".toList none (by decide) (by decide)).1
    none (fun r => by simp)

/-- C1: for an authorized threaded `Resolve` whose root maps to a
tracked issue and that carries a comment: the comment call is issued
first; if it fails, the resolve call is never issued and no reply is
sent; if the resolve call fails, no reply is sent; the threaded
confirmation under the root is emitted only after both remote calls
succeeded, in the order comment, resolve, reply. -/
theorem c1_resolve_effect_order (env : RemoteEnv)
    (admins : List (List Char)) (sender body text root : List Char)
    (ev : IssueEvent)
    (hadmin : sender ∈ admins)
    (hparse : parse_command body = some (.Resolve (some text)))
    (hdb : env.dbLookup root = .ok (some ev)) :
    (env.addCommentOk ev.issue_id text = false →
      handle_message env admins sender body (some (.thread root))
        = ([.addComment ev.issue_id text], .error ())) ∧
    (env.addCommentOk ev.issue_id text = true →
      env.resolveIssueOk ev.issue_id = false →
      handle_message env admins sender body (some (.thread root))
        = ([.addComment ev.issue_id text, .resolveIssue ev.issue_id],
           .error ())) ∧
    (env.addCommentOk ev.issue_id text = true →
      env.resolveIssueOk ev.issue_id = true →
      (handle_message env admins sender body (some (.thread root))).1
        = [.addComment ev.issue_id text, .resolveIssue ev.issue_id,
           .sendThreadReply root
             ("Issue " ++ toString ev.issue_id ++ " resolved").toList
             ("<b>Issue " ++ toString ev.issue_id ++ " resolved</b>").toList]) := by
  have hany := admins_any_eq_true hadmin
  refine ⟨?_, ?_, ?_⟩
  · intro hc
    simp [handle_message, hany, hparse, hdb, hc]
  · intro hc hr
    simp [handle_message, hany, hparse, hdb, hc, hr]
  · intro hc hr
    simp [handle_message, hany, hparse, hdb, hc, hr]

theorem c1_resolve_effect_order_witness :
    (handle_message oracleIssue42 ["@admin:example.org".toList]
      "@admin:example.org".toList "!issues resolve \"done\"".toList
      (some (.thread "$root:example.org".toList))).1
      = [.addComment 42 "done".toList, .resolveIssue 42,
         .sendThreadReply "$root:example.org".toList
           "Issue 42 resolved".toList
           "<b>Issue 42 resolved</b>".toList] :=
  (c1_resolve_effect_order oracleIssue42 ["@admin:example.org".toList]
    "@admin:example.org".toList "!issues resolve \"done\"".toList
    "done".toList "$root:example.org".toList
    ⟨42, "$root:example.org".toList, "!room:example.org".toList, none⟩
    (by decide) (by decide) rfl).2.2 rfl rfl

theorem map_eq_self_of_fix {α : Type} (f : α → α) :
    ∀ l : List α, (∀ r ∈ l, f r = r) → l.map f = l
  | [], _ => rfl
  | x :: xs, h => by
    simp only [List.map_cons, h x (by simp)]
    rw [map_eq_self_of_fix f xs (fun r hr => h r (by simp [hr]))]

/-- C5 counterexample: `set_reaction_event_id` and
`clear_reaction_event_id` for an `issue_id` with no record return
success (`Ok`), not a not-found outcome — the UPDATE matches zero rows
and the affected-row count is ignored. -/
theorem c5_counterexample :
    set_reaction_event_id ⟨[]⟩ 1 "$r:example.org".toList = .ok ⟨[]⟩ ∧
    clear_reaction_event_id ⟨[]⟩ 1 = .ok ⟨[]⟩ :=
  ⟨rfl, rfl⟩

/-- C5 (amended): for an `issueId` with no correlation record,
`set_reaction_event_id` and `clear_reaction_event_id` return success
with the store unchanged (a zero-row UPDATE no-op); the spec's
not-found outcome is never produced. -/
theorem c5_update_missing_id_is_noop (s : Store) (id : Int)
    (reid : List Char) (h : ∀ r ∈ s.rows, r.issue_id ≠ id) :
    set_reaction_event_id s id reid = .ok s ∧
    clear_reaction_event_id s id = .ok s := by
  constructor
  · simp only [set_reaction_event_id, Except.ok.injEq]
    cases s with
    | mk rows =>
      simp only [Store.mk.injEq]
      exact map_eq_self_of_fix _ rows (fun r hr => by simp [h r hr])
  · simp only [clear_reaction_event_id, Except.ok.injEq]
    cases s with
    | mk rows =>
      simp only [Store.mk.injEq]
      exact map_eq_self_of_fix _ rows (fun r hr => by simp [h r hr])

theorem c5_update_missing_id_is_noop_witness :
    set_reaction_event_id ⟨[⟨7, "$a:x".toList, "!b:x".toList, none⟩]⟩ 1
        "$r:example.org".toList
      = .ok ⟨[⟨7, "$a:x".toList, "!b:x".toList, none⟩]⟩ :=
  (c5_update_missing_id_is_noop
    ⟨[⟨7, "$a:x".toList, "!b:x".toList, none⟩]⟩ 1
    "$r:example.org".toList (by decide)).1

/-- C9: the status-marker updates only touch the
`reaction_event_id` field of rows whose `issue_id` matches; the
identifying fields of every row are unchanged and rows for other
issue ids are entirely unchanged. -/
theorem c9_marker_update_frame (s : Store) (id : Int) (reid : List Char) :
    (∀ s1, set_reaction_event_id s id reid = .ok s1 →
      s1.rows.length = s.rows.length ∧
      ∀ (i : Nat) (hi : i < s.rows.length) (hi1 : i < s1.rows.length),
        (s1.rows.get ⟨i, hi1⟩).issue_id = (s.rows.get ⟨i, hi⟩).issue_id ∧
        (s1.rows.get ⟨i, hi1⟩).matrix_event_id
          = (s.rows.get ⟨i, hi⟩).matrix_event_id ∧
        (s1.rows.get ⟨i, hi1⟩).matrix_room_id
          = (s.rows.get ⟨i, hi⟩).matrix_room_id ∧
        ((s.rows.get ⟨i, hi⟩).issue_id ≠ id →
          s1.rows.get ⟨i, hi1⟩ = s.rows.get ⟨i, hi⟩)) ∧
    (∀ s1, clear_reaction_event_id s id = .ok s1 →
      s1.rows.length = s.rows.length ∧
      ∀ (i : Nat) (hi : i < s.rows.length) (hi1 : i < s1.rows.length),
        (s1.rows.get ⟨i, hi1⟩).issue_id = (s.rows.get ⟨i, hi⟩).issue_id ∧
        (s1.rows.get ⟨i, hi1⟩).matrix_event_id
          = (s.rows.get ⟨i, hi⟩).matrix_event_id ∧
        (s1.rows.get ⟨i, hi1⟩).matrix_room_id
          = (s.rows.get ⟨i, hi⟩).matrix_room_id ∧
        ((s.rows.get ⟨i, hi⟩).issue_id ≠ id →
          s1.rows.get ⟨i, hi1⟩ = s.rows.get ⟨i, hi⟩)) := by
  constructor
  · intro s1 h
    simp only [set_reaction_event_id, Except.ok.injEq] at h
    subst h
    refine ⟨by simp, ?_⟩
    intro i hi hi1
    simp only [List.get_eq_getElem, List.getElem_map]
    by_cases hc : (s.rows.get ⟨i, hi⟩).issue_id = id <;>
      simp_all [List.get_eq_getElem]
  · intro s1 h
    simp only [clear_reaction_event_id, Except.ok.injEq] at h
    subst h
    refine ⟨by simp, ?_⟩
    intro i hi hi1
    simp only [List.get_eq_getElem, List.getElem_map]
    by_cases hc : (s.rows.get ⟨i, hi⟩).issue_id = id <;>
      simp_all [List.get_eq_getElem]

theorem c9_marker_update_frame_witness :
    ∀ s1, set_reaction_event_id
        ⟨[⟨7, "$a:x".toList, "!b:x".toList, none⟩]⟩ 7 "$m:x".toList
        = .ok s1 →
      s1.rows.length
        = (Store.mk [⟨7, "$a:x".toList, "!b:x".toList, none⟩]).rows.length :=
  fun s1 h =>
    ((c9_marker_update_frame
      ⟨[⟨7, "$a:x".toList, "!b:x".toList, none⟩]⟩ 7 "$m:x".toList).1
      s1 h).1

/-- C3: the store keeps at most one correlation record per issue id:
inserting a record for an `issueId` that already has one fails with
the uniqueness-violation signal (producing no new store, so the
caller's store — including the existing record's `matrix_event_id`
and `matrix_room_id` — is untouched), and every store operation
preserves the uniqueness invariant. -/
theorem c3_issue_id_unique (s : Store) (id : Int) (mei mri : List Char) :
    ((∃ r ∈ s.rows, r.issue_id = id) →
      insert_issue_event s id mei mri = .error .uniqueViolation) ∧
    (∀ s1, UniqueIds s → insert_issue_event s id mei mri = .ok s1 →
      UniqueIds s1) ∧
    (∀ reid s1, UniqueIds s → set_reaction_event_id s id reid = .ok s1 →
      UniqueIds s1) ∧
    (∀ s1, UniqueIds s → clear_reaction_event_id s id = .ok s1 →
      UniqueIds s1) := by
  refine ⟨?_, ?_, ?_, ?_⟩
  · rintro ⟨r, hr, hid⟩
    have : s.rows.any (fun r => r.issue_id = id) = true := by
      rw [List.any_eq_true]; exact ⟨r, hr, by simp [hid]⟩
    simp [insert_issue_event, this]
  · intro s1 hu h
    unfold insert_issue_event at h
    split at h
    · exact Except.noConfusion h
    · rename_i hcond
      rw [Except.ok.injEq] at h
      subst h
      have hnot : id ∉ s.rows.map IssueEvent.issue_id := by
        intro hmem
        rw [List.mem_map] at hmem
        obtain ⟨r, hr, hid⟩ := hmem
        exact hcond (by rw [List.any_eq_true]; exact ⟨r, hr, by simp [hid]⟩)
      unfold UniqueIds at hu ⊢
      simp only [List.map_append, List.map_cons, List.map_nil]
      rw [List.nodup_append]
      refine ⟨hu, List.nodup_singleton _, ?_⟩
      intro a ha hb
      rw [List.mem_singleton] at hb
      subst hb
      exact hnot ha
  · intro reid s1 hu h
    simp only [set_reaction_event_id, Except.ok.injEq] at h
    subst h
    have : (s.rows.map (fun r =>
        if r.issue_id = id then { r with reaction_event_id := some reid }
        else r)).map IssueEvent.issue_id = s.rows.map IssueEvent.issue_id := by
      rw [List.map_map]
      exact List.map_congr_left (fun r _ => by
        by_cases hc : r.issue_id = id <;> simp [hc])
    simpa [UniqueIds, this] using hu
  · intro s1 hu h
    simp only [clear_reaction_event_id, Except.ok.injEq] at h
    subst h
    have : (s.rows.map (fun r =>
        if r.issue_id = id then { r with reaction_event_id := none }
        else r)).map IssueEvent.issue_id = s.rows.map IssueEvent.issue_id := by
      rw [List.map_map]
      exact List.map_congr_left (fun r _ => by
        by_cases hc : r.issue_id = id <;> simp [hc])
    simpa [UniqueIds, this] using hu

theorem c3_issue_id_unique_witness :
    insert_issue_event ⟨[⟨7, "$a:x".toList, "!b:x".toList, none⟩]⟩ 7
        "$c:x".toList "!d:x".toList
      = .error .uniqueViolation :=
  (c3_issue_id_unique ⟨[⟨7, "$a:x".toList, "!b:x".toList, none⟩]⟩ 7
    "$c:x".toList "!d:x".toList).1
    ⟨⟨7, "$a:x".toList, "!b:x".toList, none⟩, by simp, rfl⟩

/-- C4: delivering `IssueCreated` twice in sequence for an issue id
with no prior record leaves exactly one correlation record for that
id in the store and sends exactly one root chat message across both
deliveries — the duplicate delivery is an idempotent no-op. -/
theorem c4_idempotent_creation (s : Store) (id : Int)
    (room subj1 root1 marker1 subj2 root2 marker2 : List Char)
    (h : get_issue_event s id = none) :
    ((route_issue_created (route_issue_created s id room subj1 root1 marker1).1
        id room subj2 root2 marker2).1.rows.filter
        (fun r => r.issue_id = id)).length = 1 ∧
    ((route_issue_created s id room subj1 root1 marker1).2 ++
      (route_issue_created (route_issue_created s id room subj1 root1 marker1).1
        id room subj2 root2 marker2).2).countP
      RouterOp.isSendRootMessage = 1 := by
  have hall : ∀ r ∈ s.rows, ¬ (r.issue_id = id) := by
    rw [get_issue_event, List.find?_eq_none] at h
    intro r hr
    simpa using h r hr
  have hany : (s.rows.any fun r => r.issue_id = id) = false := by
    rw [List.any_eq_false]
    intro r hr
    simpa using hall r hr
  have hroute1 : route_issue_created s id room subj1 root1 marker1
      = (⟨s.rows.map (fun r =>
            if r.issue_id = id then { r with reaction_event_id := some marker1 }
            else r) ++ [(⟨id, root1, room, some marker1⟩ : IssueEvent)]⟩,
         [.sendRootMessage room subj1, .addReaction root1 marker1]) := by
    simp [route_issue_created, h, insert_issue_event, hany,
      set_reaction_event_id]
  have hmapnone : (s.rows.map (fun r =>
      if r.issue_id = id then { r with reaction_event_id := some marker1 }
      else r)).find? (fun r => r.issue_id = id) = none := by
    rw [List.find?_eq_none]
    intro x hx
    rw [List.mem_map] at hx
    obtain ⟨r, hr, rfl⟩ := hx
    have hc := hall r hr
    simp [hc]
  have hget2 : get_issue_event
      ⟨s.rows.map (fun r =>
          if r.issue_id = id then { r with reaction_event_id := some marker1 }
          else r) ++ [(⟨id, root1, room, some marker1⟩ : IssueEvent)]⟩ id
      = some ⟨id, root1, room, some marker1⟩ := by
    rw [get_issue_event]
    simp only [List.find?_append, hmapnone, Option.none_or]
    simp
  have hroute2 : route_issue_created
      ⟨s.rows.map (fun r =>
          if r.issue_id = id then { r with reaction_event_id := some marker1 }
          else r) ++ [(⟨id, root1, room, some marker1⟩ : IssueEvent)]⟩
      id room subj2 root2 marker2
      = (⟨s.rows.map (fun r =>
            if r.issue_id = id then { r with reaction_event_id := some marker1 }
            else r) ++ [(⟨id, root1, room, some marker1⟩ : IssueEvent)]⟩,
         []) := by
    simp [route_issue_created, hget2]
  have hfilnil : (s.rows.map (fun r =>
      if r.issue_id = id then { r with reaction_event_id := some marker1 }
      else r)).filter (fun r => r.issue_id = id) = [] := by
    rw [List.filter_eq_nil_iff]
    intro x hx
    rw [List.mem_map] at hx
    obtain ⟨r, hr, rfl⟩ := hx
    have hc := hall r hr
    simp [hc]
  constructor
  · simp only [hroute1, hroute2, List.filter_append, hfilnil]
    simp
  · simp only [hroute1, hroute2]
    rfl

theorem c4_idempotent_creation_witness :
    ((route_issue_created
        (route_issue_created ⟨[]⟩ 42 "!room:x".toList
          "Missing subtitles".toList "$m1:x".toList "$k1:x".toList).1
        42 "!room:x".toList "Missing subtitles".toList
        "$m2:x".toList "$k2:x".toList).1.rows.filter
        (fun r => r.issue_id = 42)).length = 1 :=
  (c4_idempotent_creation ⟨[]⟩ 42 "!room:x".toList
    "Missing subtitles".toList "$m1:x".toList "$k1:x".toList
    "Missing subtitles".toList "$m2:x".toList "$k2:x".toList rfl).1

theorem from_env_isOk_iff (env : EnvMap) :
    (Config.from_env env).isOk = true ↔
      ((env "MATRIX_HOMESERVER_URL".toList).isSome = true ∧
       (env "MATRIX_USER_ID".toList).isSome = true ∧
       (env "MATRIX_PASSWORD".toList).isSome = true ∧
       (env "MATRIX_ROOM_ALIAS".toList).isSome = true ∧
       (env "DATABASE_URL".toList).isSome = true ∧
       (env "SEERR_API_URL".toList).isSome = true ∧
       (env "SEERR_API_KEY".toList).isSome = true) := by
  unfold Config.from_env
  cases h1 : env "MATRIX_HOMESERVER_URL".toList with
  | none => simp [Except.isOk, Except.toBool]
  | some v1 =>
  cases h2 : env "MATRIX_USER_ID".toList with
  | none => simp [Except.isOk, Except.toBool]
  | some v2 =>
  cases h3 : env "MATRIX_PASSWORD".toList with
  | none => simp [Except.isOk, Except.toBool]
  | some v3 =>
  cases h4 : env "MATRIX_ROOM_ALIAS".toList with
  | none => simp [Except.isOk, Except.toBool]
  | some v4 =>
  cases h5 : env "DATABASE_URL".toList with
  | none => simp [Except.isOk, Except.toBool]
  | some v5 =>
  cases h6 : env "SEERR_API_URL".toList with
  | none => simp [Except.isOk, Except.toBool]
  | some v6 =>
  cases h7 : env "SEERR_API_KEY".toList with
  | none => simp [Except.isOk, Except.toBool]
  | some v7 => simp [Except.isOk, Except.toBool]

/-- C10: the admin allow-list is built leniently: presence or absence
(or any value) of `MATRIX_ADMIN_USERS` never changes whether
`Config::from_env` succeeds; an absent variable yields the empty list;
the value is split on commas, each entry trimmed and empty entries
dropped; and the admin-user construction of `main` keeps exactly the
entries accepted by the user-id syntax check, silently dropping the
rest. -/
theorem c10_admin_allowlist_lenient :
    (∀ (env : EnvMap) (v : Option (List Char)),
      (Config.from_env (setVar env "MATRIX_ADMIN_USERS".toList v)).isOk
        = (Config.from_env env).isOk) ∧
    (∀ (env : EnvMap) (cfg : Config),
      env "MATRIX_ADMIN_USERS".toList = none →
      Config.from_env env = .ok cfg →
      cfg.matrix_admin_users = []) ∧
    parseAdminUsers " @a:x , bogus ,, @b:y ".toList
      = ["@a:x".toList, "bogus".toList, "@b:y".toList] ∧
    (∀ raw e, e ∈ parseAdminUsers raw → ¬ e = [] ∧ rustTrim e = e) ∧
    (∀ (cfg : Config) (valid : List Char → Bool),
      ∀ e ∈ admin_users_of cfg valid,
        valid e = true ∧ e ∈ cfg.matrix_admin_users) := by
  refine ⟨?_, ?_, by decide, ?_, ?_⟩
  · intro env v
    have hne : ∀ k : String, k.toList ≠ "MATRIX_ADMIN_USERS".toList →
        setVar env "MATRIX_ADMIN_USERS".toList v k.toList = env k.toList := by
      intro k hk
      simp only [setVar]
      rw [if_neg hk]
    have ha := from_env_isOk_iff (setVar env "MATRIX_ADMIN_USERS".toList v)
    have hb := from_env_isOk_iff env
    rw [hne "MATRIX_HOMESERVER_URL" (by decide),
      hne "MATRIX_USER_ID" (by decide),
      hne "MATRIX_PASSWORD" (by decide),
      hne "MATRIX_ROOM_ALIAS" (by decide),
      hne "DATABASE_URL" (by decide),
      hne "SEERR_API_URL" (by decide),
      hne "SEERR_API_KEY" (by decide)] at ha
    by_cases hA : (Config.from_env
        (setVar env "MATRIX_ADMIN_USERS".toList v)).isOk = true
    · rw [hA, hb.mpr (ha.mp hA)]
    · have hB : ¬ (Config.from_env env).isOk = true :=
        fun hB => hA (ha.mpr (hb.mp hB))
      rw [Bool.not_eq_true] at hA hB
      rw [hA, hB]
  · intro env cfg henv h
    unfold Config.from_env at h
    repeat' split at h
    any_goals exact Except.noConfusion h
    rw [Except.ok.injEq] at h
    subst h
    show parseAdminUsers ((env "MATRIX_ADMIN_USERS".toList).getD []) = []
    rw [henv]
    rfl
  · intro raw e he
    unfold parseAdminUsers at he
    rw [List.mem_filter] at he
    obtain ⟨hmap, hfil⟩ := he
    rw [List.mem_map] at hmap
    obtain ⟨p, _, rfl⟩ := hmap
    exact ⟨by simpa using hfil, rustTrim_idem p⟩
  · intro cfg valid e he
    unfold admin_users_of at he
    rw [List.mem_filter] at he
    exact ⟨he.2, he.1⟩

theorem c10_admin_allowlist_lenient_witness :
    (Config.mk "v".toList "v".toList "v".toList "v".toList "v".toList
      "v".toList "v".toList "v".toList []).matrix_admin_users = [] :=
  c10_admin_allowlist_lenient.2.1 envNoAdmins _ rfl rfl
